import Mathlib

/-!
Verification of the yt-proxy-api core logic.

Shallow embedding of `src/server.py`: the format selector
(`pick_best_progressive_mp4`), the URL normalizer (`normalize_youtube_url`),
and the `/download` request handler.

Modelling conventions:
* Python dict fields that may be absent (or `None`) become `Option` fields.
* Python strings are `String` where only equality is used, and `List Char`
  where substring / splitting structure matters (URLs).
* `height` is "integer or absent" and `tbr` is "number or absent" in the data
  model; both are embedded as `Option Int` (the selector only compares them).
* Python's `list.sort(key=…, reverse=True)` is a stable descending sort; any
  stable sort produces the same output list, so it is embedded as Mathlib's
  stable `List.insertionSort` with the corresponding descending relation.
-/

/-- A format descriptor: one entry of the `formats` list handed to
`pick_best_progressive_mp4`.  Fields mirror the dict keys the selector reads:
`ext`, `vcodec`, `acodec`, `height`, `tbr`, `url`; `none` is an absent key
(or a Python `None` value). -/
structure Format where
  ext : Option String
  vcodec : Option String
  acodec : Option String
  height : Option Int
  tbr : Option Int
  url : Option String
deriving DecidableEq, Repr

/-- Embeds `f.get("ext") == "mp4"`. -/
def extIsMp4 (f : Format) : Bool :=
  match f.ext with
  | some s => s == "mp4"
  | none => false

/-- Embeds `f.get("vcodec") not in (None, "none")`. -/
def vcodecOk (f : Format) : Bool :=
  match f.vcodec with
  | some s => !(s == "none")
  | none => false

/-- Embeds `f.get("acodec") not in (None, "none")`. -/
def acodecOk (f : Format) : Bool :=
  match f.acodec with
  | some s => !(s == "none")
  | none => false

/-- Truthiness of `f.get("url")`: present and non-empty. -/
def urlTruthy (f : Format) : Bool :=
  match f.url with
  | some s => !(s == "")
  | none => false

/-- The `prog_mp4` filter of `pick_best_progressive_mp4`:
`ext == "mp4" and vcodec not in (None,"none") and acodec not in (None,"none")
and url`. -/
def isProgMp4 (f : Format) : Bool :=
  extIsMp4 f && vcodecOk f && acodecOk f && urlTruthy f

/-- The `mp4_any` filter: `ext == "mp4" and url`. -/
def isMp4WithUrl (f : Format) : Bool :=
  extIsMp4 f && urlTruthy f

/-- The sort key `(f.get("height") or 0, f.get("tbr") or 0)`.
For an integer value `x`, `x or 0` is `0` exactly when `x` is absent, `None`
or `0`, which coincides with `Option.getD 0`. -/
def sortKey (f : Format) : Int × Int :=
  (f.height.getD 0, f.tbr.getD 0)

/-- Strict lexicographic order on sort keys (Python tuple `<`). -/
def tupLt (a b : Int × Int) : Bool :=
  decide (a.1 < b.1) || (decide (a.1 = b.1) && decide (a.2 < b.2))

/-- Lexicographic order-or-equal on sort keys (Python tuple `<=`). -/
def tupLe (a b : Int × Int) : Bool :=
  decide (a.1 < b.1) || (decide (a.1 = b.1) && decide (a.2 ≤ b.2))

/-- The relation realised by `list.sort(key=sortKey, reverse=True)`:
`f` may stand before `g` when `g`'s key is at most `f`'s key. -/
def descLE (f g : Format) : Prop :=
  tupLe (sortKey g) (sortKey f) = true

instance (f g : Format) : Decidable (descLE f g) :=
  inferInstanceAs (Decidable (tupLe (sortKey g) (sortKey f) = true))

/-- Embeds `lst.sort(key=lambda f: (f.get("height") or 0, f.get("tbr") or 0),
reverse=True)`: a stable descending sort.  Python's sort is stable, so its
output equals that of stable insertion sort with the same relation. -/
def pysort (l : List Format) : List Format :=
  List.insertionSort descLE l

/-- Embeds `pick_best_progressive_mp4(formats)` from `src/server.py`.
Three tiers: progressive MP4, any MP4 with a URL, anything with a URL; each
tier is sorted descending by `sortKey` and its first element's `url` is
returned.  (`lst[0]["url"]` is total here because every filter requires a
truthy `url`; `Option.getD ""` never sees its default on a reachable path.) -/
def pick_best_progressive_mp4 (formats : List Format) : Option String :=
  if formats.isEmpty then none else
  match (pysort (formats.filter isProgMp4)).head? with
  | some f => some (f.url.getD "")
  | none =>
    match (pysort (formats.filter isMp4WithUrl)).head? with
    | some f => some (f.url.getD "")
    | none =>
      match (pysort (formats.filter urlTruthy)).head? with
      | some f => some (f.url.getD "")
      | none => none

/-- The first element of `l` attaining the maximum `sortKey`: the element a
stable descending sort puts first.  Used to state what "best" means. -/
def firstMaxBy : List Format → Option Format
  | [] => none
  | f :: fs =>
    match firstMaxBy fs with
    | none => some f
    | some m => if tupLt (sortKey f) (sortKey m) then some m else some f

/-! ## URL normalizer (`normalize_youtube_url`) -/

/-- Python `url.rstrip("/")`: remove every trailing `'/'`. -/
def rstripSlash (l : List Char) : List Char :=
  (l.reverse.dropWhile (· = '/')).reverse

/-- Python `s.split(sep)` for a one-character separator: the list of (possibly
empty) components; never empty (`"".split(sep) == [""]`). -/
def pysplit (sep : Char) : List Char → List (List Char)
  | [] => [[]]
  | c :: cs =>
    match pysplit sep cs with
    | [] => [[]]
    | h :: t => if c = sep then [] :: h :: t else (c :: h) :: t

/-- The short-form path segment tested by `"youtube.com/shorts/" in url`. -/
def shortsSegment : List Char := "youtube.com/shorts/".toList

/-- The canonical watch-URL stem `https://www.youtube.com/watch?v=`. -/
def watchStem : List Char := "https://www.youtube.com/watch?v=".toList

/-- Embeds `normalize_youtube_url(url)` from `src/server.py`:
`vid = url.rstrip("/").split("/")[-1]; vid = vid.split("?")[0];
return f"https://www.youtube.com/watch?v={vid}"` when the shorts segment
occurs in `url`, else the input unchanged.  (The `try`/`except` in the source
is dead: none of these string operations raises.) -/
def normalize_youtube_url (url : List Char) : List Char :=
  if url = [] then url
  else if shortsSegment <:+: url then
    watchStem ++
      (pysplit '?' ((pysplit '/' (rstripSlash url)).getLastD [])).headD []
  else url

/-! ## `/download` handler -/

/-- Embeds `YT_HOST_RE.search(url)` for `re.compile(r"(youtube\.com|youtu\.be)")`:
both alternatives are literal (the dots are escaped), so `search` is
substring containment of either literal. -/
def ytHostSearch (l : List Char) : Bool :=
  decide ("youtube.com".toList <:+: l) || decide ("youtu.be".toList <:+: l)

/-- Python `s.strip()`: remove leading and trailing whitespace. -/
def pystrip (l : List Char) : List Char :=
  ((l.dropWhile Char.isWhitespace).reverse.dropWhile Char.isWhitespace).reverse

/-- The fields the handler reads from a single-video info dict:
`title`, `duration`, `formats` (each possibly absent). -/
structure Entry where
  title : Option String
  duration : Option Int
  formats : Option (List Format)
deriving DecidableEq, Repr

/-- Result of `ydl.extract_info`: either a single video dict or a playlist
dict (`_type == "playlist"`) with its `entries` list (an absent or `None`
`entries` key is the empty list — both are falsy and both 404). -/
inductive ExtractInfo where
  | single (e : Entry)
  | playlist (entries : List Entry)
deriving DecidableEq, Repr

/-- An HTTP response of the handler: an error body `{"error": msg}` with a
status, the 502 body `{"error": msg, "detail": detail}`, or the 200 success
body `{"title", "duration", "source_url", "mp4_url"}`. -/
inductive Response where
  | failure (status : Nat) (error : String)
  | failureDetail (status : Nat) (error : String) (detail : String)
  | success (title : Option String) (duration : Option Int)
      (sourceUrl : List Char) (mp4Url : String)
deriving DecidableEq, Repr

/-- An incoming request: optional `x-api-key` header, optional `url` query
parameter. -/
structure Request where
  xApiKey : Option String
  urlParam : Option (List Char)
deriving DecidableEq, Repr

/-- The tail of the handler once an `info` dict has been resolved to a single
entry: read `title`, `duration`, `formats or []`, pick the best URL, 502 when
`not mp4_url` (absent or empty), else the 200 payload. -/
def processEntry (e : Entry) (sourceUrl : List Char) : Response :=
  match pick_best_progressive_mp4 (e.formats.getD []) with
  | none => .failure 502 "No downloadable MP4 URL was found"
  | some u =>
    if u == "" then .failure 502 "No downloadable MP4 URL was found"
    else .success e.title e.duration sourceUrl u

/-- The `/download` handler from `src/server.py`.  `extract` stands for the
external `ydl.extract_info` call on the normalized URL: a black-box oracle
returning either an error message (any exception) or an info record.
Control flow: optional API-key check, `url` parameter strip + host regex
check, normalization, extraction, playlist first-entry substitution, format
selection. -/
def download (API_KEY : String) (req : Request)
    (extract : List Char → Except String ExtractInfo) : Response :=
  if API_KEY ≠ "" ∧ req.xApiKey.getD "" ≠ API_KEY then
    .failure 401 "Unauthorized"
  else
    let url := pystrip (req.urlParam.getD [])
    if url = [] ∨ ytHostSearch url = false then
      .failure 400 "Provide a valid YouTube URL via ?url="
    else
      let nurl := normalize_youtube_url url
      match extract nurl with
      | .error e => .failureDetail 502 "yt-dlp failed" e
      | .ok info =>
        match info with
        | .single e => processEntry e nurl
        | .playlist (e :: _) => processEntry e nurl
        | .playlist [] => .failure 404 "Playlist contained no entries"

/-! ## Derived definitions used to state the claims -/

/-- Spec wording: the trailing path component — the suffix of a URL after its
last `'/'`. -/
def tailAfterSlash (l : List Char) : List Char :=
  (l.reverse.takeWhile (· ≠ '/')).reverse

/-- Spec wording: strip the query string — keep the part before the first
`'?'`. -/
def stripQuery (l : List Char) : List Char :=
  l.takeWhile (· ≠ '?')

/-- The canonical watch-style URL the spec describes for a short-form
input: the watch stem followed by the trailing path component of the input
(trailing slashes removed) with its query string stripped. -/
def shortsCanonical (url : List Char) : List Char :=
  watchStem ++ stripQuery (tailAfterSlash (rstripSlash url))

/-- Comparison `x < y` on optional integers with an absent value strictly below every
present value: the "missing treated as lowest" reading. -/
def optLtLowest (x y : Option Int) : Bool :=
  match x, y with
  | none, none => false
  | none, some _ => true
  | some _, none => false
  | some a, some b => decide (a < b)

/-- Strict lexicographic comparison of two descriptors by (height, bitrate)
with missing values treated as lowest. -/
def keyLtLowest (f g : Format) : Bool :=
  optLtLowest f.height g.height ||
    ((f.height == g.height) && optLtLowest f.tbr g.tbr)

/-- A progressive MP4 descriptor whose height is the negative integer `-1`. -/
def cexNegHeight : Format :=
  ⟨some "mp4", some "avc1", some "mp4a.40.2", some (-1), some 0, some "A"⟩

/-- A progressive MP4 descriptor with height and bitrate absent. -/
def cexAbsentHeight : Format :=
  ⟨some "mp4", some "avc1", some "mp4a.40.2", none, none, some "B"⟩

/-- Replace an absent height or bitrate by an explicit `0`, leaving every
other attribute unchanged. -/
def fillKeyZeros (f : Format) : Format :=
  { f with height := some (f.height.getD 0), tbr := some (f.tbr.getD 0) }

/-- A progressive MP4 descriptor with negative height and positive
bitrate. -/
def cexNegHeightPosTbr : Format :=
  ⟨some "mp4", some "avc1", some "mp4a.40.2", some (-5), some 100, some "A"⟩

/-! ## Order lemmas for the sort key -/

theorem tupLt_iff (a b : Int × Int) :
    tupLt a b = true ↔ a.1 < b.1 ∨ (a.1 = b.1 ∧ a.2 < b.2) := by
  simp [tupLt]

theorem tupLe_iff (a b : Int × Int) :
    tupLe a b = true ↔ a.1 < b.1 ∨ (a.1 = b.1 ∧ a.2 ≤ b.2) := by
  simp [tupLe]

theorem tupLe_refl (a : Int × Int) : tupLe a a = true := by
  rw [tupLe_iff]; omega

theorem tupLe_trans {a b c : Int × Int}
    (h₁ : tupLe a b = true) (h₂ : tupLe b c = true) : tupLe a c = true := by
  rw [tupLe_iff] at h₁ h₂ ⊢; omega

theorem tupLe_of_tupLt {a b : Int × Int} (h : tupLt a b = true) :
    tupLe a b = true := by
  rw [tupLt_iff] at h; rw [tupLe_iff]; omega

theorem tupLe_iff_not_tupLt (a b : Int × Int) :
    tupLe a b = true ↔ tupLt b a = false := by
  rw [tupLe_iff, ← Bool.not_eq_true, tupLt_iff]; omega

/-! ## The head of the stable descending sort is the first maximum -/

theorem firstMaxBy_eq_none {l : List Format} : firstMaxBy l = none ↔ l = [] := by
  cases l with
  | nil => simp [firstMaxBy]
  | cons f fs =>
    simp only [firstMaxBy]
    cases firstMaxBy fs with
    | none => simp
    | some m =>
      constructor
      · intro h
        by_cases ht : tupLt (sortKey f) (sortKey m) = true <;> simp [ht] at h
      · intro h; cases h

theorem head_pysort : ∀ l : List Format, (pysort l).head? = firstMaxBy l
  | [] => rfl
  | f :: fs => by
    have ih := head_pysort fs
    rw [pysort, List.insertionSort]
    rw [pysort] at ih
    cases hs : List.insertionSort descLE fs with
    | nil =>
      rw [hs] at ih
      simp only [List.head?] at ih
      rw [List.orderedInsert, firstMaxBy, ← ih]
      rfl
    | cons y ys =>
      rw [hs] at ih
      simp only [List.head?] at ih
      rw [List.orderedInsert, firstMaxBy, ← ih]
      by_cases hd : descLE f y
      · rw [if_pos hd]
        have : tupLt (sortKey f) (sortKey y) = false :=
          (tupLe_iff_not_tupLt _ _).mp hd
        simp [this]
      · rw [if_neg hd]
        have : tupLt (sortKey f) (sortKey y) = true := by
          rcases Bool.eq_false_or_eq_true (tupLt (sortKey f) (sortKey y)) with h | h
          · exact h
          · exact absurd ((tupLe_iff_not_tupLt _ _).mpr h) hd
        simp [this]

theorem firstMaxBy_mem : ∀ {l : List Format} {f : Format},
    firstMaxBy l = some f → f ∈ l := by
  intro l
  induction l with
  | nil => intro f h; cases h
  | cons g gs ih =>
    intro f h
    cases hg : firstMaxBy gs with
    | none =>
      simp only [firstMaxBy, hg] at h
      cases h; exact List.mem_cons_self _ _
    | some m =>
      simp only [firstMaxBy, hg] at h
      by_cases ht : tupLt (sortKey g) (sortKey m) = true
      · rw [if_pos ht] at h
        cases h
        exact List.mem_cons_of_mem _ (ih hg)
      · rw [if_neg ht] at h
        cases h
        exact List.mem_cons_self _ _

theorem firstMaxBy_max : ∀ {l : List Format} {f : Format},
    firstMaxBy l = some f → ∀ g ∈ l, tupLe (sortKey g) (sortKey f) = true := by
  intro l
  induction l with
  | nil => intro f h; cases h
  | cons a as ih =>
    intro f h g hg
    cases ha : firstMaxBy as with
    | none =>
      simp only [firstMaxBy, ha] at h
      cases h
      rcases List.mem_cons.mp hg with rfl | hmem
      · exact tupLe_refl _
      · exact absurd (firstMaxBy_eq_none.mp ha ▸ hmem) (List.not_mem_nil g)
    | some m =>
      simp only [firstMaxBy, ha] at h
      by_cases ht : tupLt (sortKey a) (sortKey m) = true
      · rw [if_pos ht] at h
        cases h
        rcases List.mem_cons.mp hg with rfl | hmem
        · exact tupLe_of_tupLt ht
        · exact ih ha g hmem
      · rw [if_neg ht] at h
        cases h
        have hma : tupLe (sortKey m) (sortKey a) = true :=
          (tupLe_iff_not_tupLt _ _).mpr (Bool.eq_false_iff.mpr ht)
        rcases List.mem_cons.mp hg with rfl | hmem
        · exact tupLe_refl _
        · exact tupLe_trans (ih ha g hmem) hma

theorem mem_pysort {f : Format} {l : List Format} : f ∈ pysort l ↔ f ∈ l :=
  (List.perm_insertionSort descLE l).mem_iff

/-! ## Tier-level characterization of the selector -/

theorem isMp4WithUrl_of_isProgMp4 {f : Format} (h : isProgMp4 f = true) :
    isMp4WithUrl f = true := by
  simp only [isProgMp4, Bool.and_eq_true] at h
  simp only [isMp4WithUrl, Bool.and_eq_true]
  exact ⟨h.1.1.1, h.2⟩

theorem urlTruthy_of_isMp4WithUrl {f : Format} (h : isMp4WithUrl f = true) :
    urlTruthy f = true := by
  simp only [isMp4WithUrl, Bool.and_eq_true] at h
  exact h.2

theorem urlTruthy_iff {f : Format} :
    urlTruthy f = true ↔ ∃ s, f.url = some s ∧ s ≠ "" := by
  cases hu : f.url with
  | none => simp [urlTruthy, hu]
  | some s => simp [urlTruthy, hu]

theorem filter_ne_nil_ne_nil {p : Format → Bool} {l : List Format}
    (h : l.filter p ≠ []) : l ≠ [] := by
  intro hl
  rw [hl, List.filter_nil] at h
  exact h rfl

theorem pick_eq_of_prog {l : List Format} {f : Format}
    (h : firstMaxBy (l.filter isProgMp4) = some f) :
    pick_best_progressive_mp4 l = some (f.url.getD "") := by
  have hne : l ≠ [] := filter_ne_nil_ne_nil (fun he => by
    rw [he, firstMaxBy] at h; cases h)
  rw [pick_best_progressive_mp4,
    if_neg (by simp [List.isEmpty_iff, hne]), head_pysort, h]

theorem pick_eq_of_mp4 {l : List Format} {f : Format}
    (hprog : l.filter isProgMp4 = [])
    (h : firstMaxBy (l.filter isMp4WithUrl) = some f) :
    pick_best_progressive_mp4 l = some (f.url.getD "") := by
  have hne : l ≠ [] := filter_ne_nil_ne_nil (fun he => by
    rw [he, firstMaxBy] at h; cases h)
  rw [pick_best_progressive_mp4,
    if_neg (by simp [List.isEmpty_iff, hne]), head_pysort, hprog]
  rw [firstMaxBy, head_pysort, h]

theorem pick_eq_of_any {l : List Format} {f : Format}
    (hmp4 : l.filter isMp4WithUrl = [])
    (h : firstMaxBy (l.filter urlTruthy) = some f) :
    pick_best_progressive_mp4 l = some (f.url.getD "") := by
  have hne : l ≠ [] := filter_ne_nil_ne_nil (fun he => by
    rw [he, firstMaxBy] at h; cases h)
  have hprog : l.filter isProgMp4 = [] := by
    rw [List.filter_eq_nil_iff] at hmp4 ⊢
    intro a ha hpa
    exact hmp4 a ha (isMp4WithUrl_of_isProgMp4 hpa)
  rw [pick_best_progressive_mp4,
    if_neg (by simp [List.isEmpty_iff, hne]), head_pysort, hprog]
  rw [firstMaxBy, head_pysort, hmp4]
  rw [firstMaxBy, head_pysort, h]

theorem pick_none_of_no_url {l : List Format}
    (h : l.filter urlTruthy = []) :
    pick_best_progressive_mp4 l = none := by
  by_cases hl : l = []
  · rw [hl, pick_best_progressive_mp4]
    rfl
  · have hUrl : ∀ a ∈ l, ¬ urlTruthy a = true := List.filter_eq_nil_iff.mp h
    have hmp4 : l.filter isMp4WithUrl = [] := by
      rw [List.filter_eq_nil_iff]
      intro a ha hpa
      exact hUrl a ha (urlTruthy_of_isMp4WithUrl hpa)
    have hprog : l.filter isProgMp4 = [] := by
      rw [List.filter_eq_nil_iff]
      intro a ha hpa
      exact hUrl a ha (urlTruthy_of_isMp4WithUrl (isMp4WithUrl_of_isProgMp4 hpa))
    rw [pick_best_progressive_mp4,
      if_neg (by simp [List.isEmpty_iff, hl]), head_pysort, hprog]
    rw [firstMaxBy, head_pysort, hmp4]
    rw [firstMaxBy, head_pysort, h]
    rfl

/-! ## Claim C1: progressive MP4 selection -/

/-- C1 (amended): for every format list containing at least one progressive
MP4 candidate (ext "mp4", video and audio codec present and not "none", URL
present), the selector returns the URL of the progressive candidate with the
maximum (height, bitrate) pair — a missing height or bitrate treated as 0 —
with ties broken by original list order (`firstMaxBy`), and the chosen
descriptor is itself a progressive MP4 from the input, so a non-progressive
or non-MP4 URL is never returned. -/
theorem progressive_selection_returns_best (l : List Format)
    (h : l.filter isProgMp4 ≠ []) :
    ∃ f, firstMaxBy (l.filter isProgMp4) = some f ∧
      f ∈ l ∧ isProgMp4 f = true ∧
      (∀ g ∈ l.filter isProgMp4, tupLe (sortKey g) (sortKey f) = true) ∧
      pick_best_progressive_mp4 l = some (f.url.getD "") := by
  cases hf : firstMaxBy (l.filter isProgMp4) with
  | none => exact absurd (firstMaxBy_eq_none.mp hf) h
  | some f =>
    obtain ⟨hl, hp⟩ := List.mem_filter.mp (firstMaxBy_mem hf)
    exact ⟨f, rfl, hl, hp, firstMaxBy_max hf, pick_eq_of_prog hf⟩

/-- Witness for C1's amended theorem on a concrete two-element list. -/
theorem progressive_selection_returns_best_witness :
    [cexNegHeight, cexAbsentHeight].filter isProgMp4 ≠ [] ∧
    (∃ f, firstMaxBy ([cexNegHeight, cexAbsentHeight].filter isProgMp4) = some f ∧
      f ∈ [cexNegHeight, cexAbsentHeight] ∧ isProgMp4 f = true ∧
      (∀ g ∈ [cexNegHeight, cexAbsentHeight].filter isProgMp4,
        tupLe (sortKey g) (sortKey f) = true) ∧
      pick_best_progressive_mp4 [cexNegHeight, cexAbsentHeight]
        = some (f.url.getD "")) :=
  ⟨by decide, progressive_selection_returns_best _ (by decide)⟩

/-- C1 as stated is false: "missing height or bitrate treated as lowest"
contradicts the code, which treats them as 0.  Both descriptors below are
progressive MP4; under the missing-as-lowest ordering the absent-height one
is strictly below the one of height `-1`, so the claim requires the URL "A",
but the selector returns "B" (the absent height counts as 0 > -1). -/
theorem progressive_selection_missing_lowest_cex :
    isProgMp4 cexNegHeight = true ∧
    isProgMp4 cexAbsentHeight = true ∧
    keyLtLowest cexAbsentHeight cexNegHeight = true ∧
    cexNegHeight.url = some "A" ∧
    pick_best_progressive_mp4 [cexNegHeight, cexAbsentHeight] = some "B" ∧
    "B" ≠ "A" := by
  decide

/-! ## Claim C2: fallback tiers -/

/-- C2: if no progressive MP4 candidate exists but some MP4 descriptor has a
URL, the selector returns the best such MP4 by (height, bitrate) descending
with ties in original order; if no MP4 descriptor has a URL but some
descriptor does, it returns the best URL-bearing descriptor by the same
ordering. -/
theorem fallback_selection_correct (l : List Format) :
    (l.filter isProgMp4 = [] → l.filter isMp4WithUrl ≠ [] →
      ∃ f, firstMaxBy (l.filter isMp4WithUrl) = some f ∧
        f ∈ l ∧ isMp4WithUrl f = true ∧
        (∀ g ∈ l.filter isMp4WithUrl, tupLe (sortKey g) (sortKey f) = true) ∧
        pick_best_progressive_mp4 l = some (f.url.getD "")) ∧
    (l.filter isMp4WithUrl = [] → l.filter urlTruthy ≠ [] →
      ∃ f, firstMaxBy (l.filter urlTruthy) = some f ∧
        f ∈ l ∧ urlTruthy f = true ∧
        (∀ g ∈ l.filter urlTruthy, tupLe (sortKey g) (sortKey f) = true) ∧
        pick_best_progressive_mp4 l = some (f.url.getD "")) := by
  constructor
  · intro hprog hne
    cases hf : firstMaxBy (l.filter isMp4WithUrl) with
    | none => exact absurd (firstMaxBy_eq_none.mp hf) hne
    | some f =>
      obtain ⟨hl, hp⟩ := List.mem_filter.mp (firstMaxBy_mem hf)
      exact ⟨f, rfl, hl, hp, firstMaxBy_max hf, pick_eq_of_mp4 hprog hf⟩
  · intro hmp4 hne
    cases hf : firstMaxBy (l.filter urlTruthy) with
    | none => exact absurd (firstMaxBy_eq_none.mp hf) hne
    | some f =>
      obtain ⟨hl, hp⟩ := List.mem_filter.mp (firstMaxBy_mem hf)
      exact ⟨f, rfl, hl, hp, firstMaxBy_max hf, pick_eq_of_any hmp4 hf⟩

/-- Witness for C2 on concrete lists: a video-only MP4 (tier 2) and a
non-MP4 URL-bearing descriptor (tier 3). -/
theorem fallback_selection_correct_witness :
    (∃ f, firstMaxBy ([(⟨some "mp4", some "avc1", some "none", some 720,
        some 100, some "V"⟩ : Format)].filter isMp4WithUrl) = some f ∧
      f ∈ [(⟨some "mp4", some "avc1", some "none", some 720, some 100,
        some "V"⟩ : Format)] ∧ isMp4WithUrl f = true ∧
      (∀ g ∈ [(⟨some "mp4", some "avc1", some "none", some 720, some 100,
        some "V"⟩ : Format)].filter isMp4WithUrl,
        tupLe (sortKey g) (sortKey f) = true) ∧
      pick_best_progressive_mp4 [(⟨some "mp4", some "avc1", some "none",
        some 720, some 100, some "V"⟩ : Format)] = some (f.url.getD "")) ∧
    (∃ f, firstMaxBy ([(⟨some "webm", some "vp9", some "opus", some 1080,
        some 200, some "W"⟩ : Format)].filter urlTruthy) = some f ∧
      f ∈ [(⟨some "webm", some "vp9", some "opus", some 1080, some 200,
        some "W"⟩ : Format)] ∧ urlTruthy f = true ∧
      (∀ g ∈ [(⟨some "webm", some "vp9", some "opus", some 1080, some 200,
        some "W"⟩ : Format)].filter urlTruthy,
        tupLe (sortKey g) (sortKey f) = true) ∧
      pick_best_progressive_mp4 [(⟨some "webm", some "vp9", some "opus",
        some 1080, some 200, some "W"⟩ : Format)] = some (f.url.getD "")) :=
  ⟨(fallback_selection_correct _).1 (by decide) (by decide),
   (fallback_selection_correct _).2 (by decide) (by decide)⟩

/-! ## Claim C8: the result URL comes from the input -/

/-- C8: whenever the selector returns a URL, that URL is the url field of
some descriptor of the input list, and it was non-empty at selection time. -/
theorem selection_url_from_input (l : List Format) (u : String)
    (h : pick_best_progressive_mp4 l = some u) :
    u ≠ "" ∧ ∃ f ∈ l, f.url = some u := by
  by_cases hl : l = []
  · rw [hl] at h
    simp [pick_best_progressive_mp4] at h
  · cases h1 : firstMaxBy (l.filter isProgMp4) with
    | some f =>
      rw [pick_eq_of_prog h1] at h
      injection h with hu
      obtain ⟨hfl, hp⟩ := List.mem_filter.mp (firstMaxBy_mem h1)
      obtain ⟨s, hs, hse⟩ := urlTruthy_iff.mp
        (urlTruthy_of_isMp4WithUrl (isMp4WithUrl_of_isProgMp4 hp))
      have hus : u = s := by rw [← hu, hs]; rfl
      subst hus
      exact ⟨hse, f, hfl, hs⟩
    | none =>
      have hprog := firstMaxBy_eq_none.mp h1
      cases h2 : firstMaxBy (l.filter isMp4WithUrl) with
      | some f =>
        rw [pick_eq_of_mp4 hprog h2] at h
        injection h with hu
        obtain ⟨hfl, hp⟩ := List.mem_filter.mp (firstMaxBy_mem h2)
        obtain ⟨s, hs, hse⟩ := urlTruthy_iff.mp (urlTruthy_of_isMp4WithUrl hp)
        have hus : u = s := by rw [← hu, hs]; rfl
        subst hus
        exact ⟨hse, f, hfl, hs⟩
      | none =>
        have hmp4 := firstMaxBy_eq_none.mp h2
        cases h3 : firstMaxBy (l.filter urlTruthy) with
        | some f =>
          rw [pick_eq_of_any hmp4 h3] at h
          injection h with hu
          obtain ⟨hfl, hp⟩ := List.mem_filter.mp (firstMaxBy_mem h3)
          obtain ⟨s, hs, hse⟩ := urlTruthy_iff.mp hp
          have hus : u = s := by rw [← hu, hs]; rfl
          subst hus
          exact ⟨hse, f, hfl, hs⟩
        | none =>
          rw [pick_none_of_no_url (firstMaxBy_eq_none.mp h3)] at h
          cases h

/-- Witness for C8: the selector output on a singleton list is its
descriptor's URL. -/
theorem selection_url_from_input_witness :
    ("B" : String) ≠ "" ∧ ∃ f ∈ [cexAbsentHeight], f.url = some "B" :=
  selection_url_from_input [cexAbsentHeight] "B" (by decide)

/-! ## Handler plumbing lemmas -/

theorem download_reaches_extraction (API_KEY : String) (req : Request)
    (extract : List Char → Except String ExtractInfo)
    (hauth : API_KEY = "" ∨ req.xApiKey.getD "" = API_KEY)
    (hurl : pystrip (req.urlParam.getD []) ≠ [])
    (hhost : ytHostSearch (pystrip (req.urlParam.getD [])) = true) :
    download API_KEY req extract =
      match extract (normalize_youtube_url (pystrip (req.urlParam.getD []))) with
      | Except.error e => Response.failureDetail 502 "yt-dlp failed" e
      | Except.ok info =>
        match info with
        | ExtractInfo.single e =>
          processEntry e (normalize_youtube_url (pystrip (req.urlParam.getD [])))
        | ExtractInfo.playlist (e :: _) =>
          processEntry e (normalize_youtube_url (pystrip (req.urlParam.getD [])))
        | ExtractInfo.playlist [] =>
          Response.failure 404 "Playlist contained no entries" := by
  simp only [download]
  rw [if_neg (by
    rintro ⟨hk, hh⟩
    rcases hauth with h | h
    · exact hk h
    · exact hh h)]
  rw [if_neg (by
    rintro (h | h)
    · exact hurl h
    · rw [hhost] at h
      cases h)]

theorem download_rejects_invalid (API_KEY : String) (req : Request)
    (extract : List Char → Except String ExtractInfo)
    (hauth : API_KEY = "" ∨ req.xApiKey.getD "" = API_KEY)
    (hbad : pystrip (req.urlParam.getD []) = [] ∨
      ytHostSearch (pystrip (req.urlParam.getD [])) = false) :
    download API_KEY req extract
      = Response.failure 400 "Provide a valid YouTube URL via ?url=" := by
  simp only [download]
  rw [if_neg (by
    rintro ⟨hk, hh⟩
    rcases hauth with h | h
    · exact hk h
    · exact hh h)]
  rw [if_pos hbad]

/-! ## Claim C3: no URL-bearing descriptor → no candidate → 502 -/

/-- C3: when no descriptor carries a (non-empty) URL — the empty list
included — the selector returns `none`; and a `/download` request that
reaches selection with such a format list is answered
502 `{"error": "No downloadable MP4 URL was found"}`. -/
theorem no_candidate_yields_502 :
    (∀ l : List Format, (∀ f ∈ l, urlTruthy f = false) →
      pick_best_progressive_mp4 l = none) ∧
    pick_best_progressive_mp4 [] = none ∧
    (∀ (API_KEY : String) (req : Request)
        (extract : List Char → Except String ExtractInfo) (e : Entry),
      (API_KEY = "" ∨ req.xApiKey.getD "" = API_KEY) →
      pystrip (req.urlParam.getD []) ≠ [] →
      ytHostSearch (pystrip (req.urlParam.getD [])) = true →
      extract (normalize_youtube_url (pystrip (req.urlParam.getD [])))
        = Except.ok (ExtractInfo.single e) →
      (∀ f ∈ e.formats.getD [], urlTruthy f = false) →
      download API_KEY req extract
        = Response.failure 502 "No downloadable MP4 URL was found") := by
  refine ⟨?_, rfl, ?_⟩
  · intro l hf
    apply pick_none_of_no_url
    rw [List.filter_eq_nil_iff]
    intro a ha
    simp [hf a ha]
  · intro API_KEY req extract e hauth hurl hhost hex hfmt
    have hstep : download API_KEY req extract
        = processEntry e (normalize_youtube_url (pystrip (req.urlParam.getD []))) := by
      rw [download_reaches_extraction API_KEY req extract hauth hurl hhost, hex]
    have hnone : pick_best_progressive_mp4 (e.formats.getD []) = none := by
      apply pick_none_of_no_url
      rw [List.filter_eq_nil_iff]
      intro a ha
      simp [hfmt a ha]
    rw [hstep]
    unfold processEntry
    rw [hnone]

/-- Witness for C3: a URL-less MP4 descriptor yields `none` from the
selector, and a full request over such a format list is answered 502. -/
theorem no_candidate_yields_502_witness :
    pick_best_progressive_mp4
      [(⟨some "mp4", some "avc1", some "mp4a", some 100, some 5, none⟩ : Format)]
      = none ∧
    download "" ⟨none, some "https://youtu.be/x".toList⟩
      (fun _ => Except.ok (ExtractInfo.single ⟨some "T", some 9,
        some [⟨some "mp4", some "avc1", some "mp4a", some 100, some 5, none⟩]⟩))
      = Response.failure 502 "No downloadable MP4 URL was found" :=
  ⟨no_candidate_yields_502.1 _ (by decide),
   no_candidate_yields_502.2.2 "" _ _ _ (Or.inl rfl) (by decide) (by decide)
     rfl (by decide)⟩

/-! ## Claim C5: API-key authorization -/

/-- C5: with an API key configured, a request whose `x-api-key` header is
absent or different is answered 401 `{"error": "Unauthorized"}` whatever the
`url` parameter holds (the check precedes URL validation); with no key
configured, the response never depends on the header. -/
theorem api_key_unauthorized :
    (∀ (API_KEY : String) (req : Request)
        (extract : List Char → Except String ExtractInfo),
      API_KEY ≠ "" → req.xApiKey.getD "" ≠ API_KEY →
      download API_KEY req extract = Response.failure 401 "Unauthorized") ∧
    (∀ (req : Request) (extract : List Char → Except String ExtractInfo)
        (h₁ h₂ : Option String),
      download "" { req with xApiKey := h₁ } extract
        = download "" { req with xApiKey := h₂ } extract) := by
  constructor
  · intro API_KEY req extract hk hh
    rw [download, if_pos ⟨hk, hh⟩]
  · intro req extract h₁ h₂
    by_cases hbad : pystrip (req.urlParam.getD []) = [] ∨
        ytHostSearch (pystrip (req.urlParam.getD [])) = false
    · rw [download_rejects_invalid "" { req with xApiKey := h₁ } extract
          (Or.inl rfl) hbad,
        download_rejects_invalid "" { req with xApiKey := h₂ } extract
          (Or.inl rfl) hbad]
    · obtain ⟨hu, hh⟩ := not_or.mp hbad
      have hh' : ytHostSearch (pystrip (req.urlParam.getD [])) = true := by
        revert hh
        cases ytHostSearch (pystrip (req.urlParam.getD [])) <;> simp
      rw [download_reaches_extraction "" { req with xApiKey := h₁ } extract
          (Or.inl rfl) hu hh',
        download_reaches_extraction "" { req with xApiKey := h₂ } extract
          (Or.inl rfl) hu hh']

/-- Witness for C5: a configured key with a missing header is rejected even
with a valid URL; with no key configured the header is ignored. -/
theorem api_key_unauthorized_witness :
    download "secret" ⟨none, some "https://youtu.be/x".toList⟩
      (fun _ => Except.error "E") = Response.failure 401 "Unauthorized" ∧
    download "" ⟨some "whatever", some "https://youtu.be/x".toList⟩
      (fun _ => Except.error "E")
      = download "" ⟨none, some "https://youtu.be/x".toList⟩
        (fun _ => Except.error "E") :=
  ⟨api_key_unauthorized.1 "secret" _ _ (by decide) (by decide),
   api_key_unauthorized.2 ⟨none, some "https://youtu.be/x".toList⟩ _
     (some "whatever") none⟩

/-! ## Claim C6: URL validation -/

/-- C6: past authorization, a missing, blank-after-strip, or
non-host-matching `url` parameter is answered
400 `{"error": "Provide a valid YouTube URL via ?url="}` for every
extraction oracle (so before any extraction attempt); in particular
`https://example.com` is rejected this way. -/
theorem invalid_url_rejected :
    (∀ (API_KEY : String) (req : Request)
        (extract : List Char → Except String ExtractInfo),
      (API_KEY = "" ∨ req.xApiKey.getD "" = API_KEY) →
      (pystrip (req.urlParam.getD []) = [] ∨
        ytHostSearch (pystrip (req.urlParam.getD [])) = false) →
      download API_KEY req extract
        = Response.failure 400 "Provide a valid YouTube URL via ?url=") ∧
    (∀ extract : List Char → Except String ExtractInfo,
      download "" ⟨none, some "https://example.com".toList⟩ extract
        = Response.failure 400 "Provide a valid YouTube URL via ?url=") := by
  exact ⟨download_rejects_invalid,
    fun extract => download_rejects_invalid "" _ extract (Or.inl rfl)
      (Or.inr (by decide))⟩

/-- Witness for C6 at a concrete oracle. -/
theorem invalid_url_rejected_witness :
    download "" ⟨none, some "https://example.com".toList⟩
      (fun _ => Except.error "E")
      = Response.failure 400 "Provide a valid YouTube URL via ?url=" :=
  invalid_url_rejected.2 (fun _ => Except.error "E")

/-! ## Claim C7: playlist substitution -/

/-- C7: when extraction yields a playlist, a non-empty entry list makes the
handler continue with the first entry (equivalently: as if extraction had
returned that entry as a single video), while an empty entry list is
answered 404 `{"error": "Playlist contained no entries"}`. -/
theorem playlist_first_entry (API_KEY : String) (req : Request)
    (extract : List Char → Except String ExtractInfo) (e : Entry)
    (es : List Entry)
    (hauth : API_KEY = "" ∨ req.xApiKey.getD "" = API_KEY)
    (hurl : pystrip (req.urlParam.getD []) ≠ [])
    (hhost : ytHostSearch (pystrip (req.urlParam.getD [])) = true) :
    (extract (normalize_youtube_url (pystrip (req.urlParam.getD [])))
        = Except.ok (ExtractInfo.playlist (e :: es)) →
      download API_KEY req extract
        = processEntry e (normalize_youtube_url (pystrip (req.urlParam.getD []))) ∧
      download API_KEY req extract
        = download API_KEY req (fun _ => Except.ok (ExtractInfo.single e))) ∧
    (extract (normalize_youtube_url (pystrip (req.urlParam.getD [])))
        = Except.ok (ExtractInfo.playlist []) →
      download API_KEY req extract
        = Response.failure 404 "Playlist contained no entries") := by
  constructor
  · intro hex
    have h1 : download API_KEY req extract
        = processEntry e (normalize_youtube_url (pystrip (req.urlParam.getD []))) := by
      rw [download_reaches_extraction API_KEY req extract hauth hurl hhost, hex]
    refine ⟨h1, ?_⟩
    rw [h1, download_reaches_extraction API_KEY req _ hauth hurl hhost]
  · intro hex
    rw [download_reaches_extraction API_KEY req extract hauth hurl hhost, hex]

/-- Witness for C7 with a one-entry playlist and an empty playlist. -/
theorem playlist_first_entry_witness :
    (download "" ⟨none, some "https://youtu.be/x".toList⟩
        (fun _ => Except.ok (ExtractInfo.playlist [⟨some "T", some 3, some []⟩]))
      = processEntry ⟨some "T", some 3, some []⟩ "https://youtu.be/x".toList ∧
     download "" ⟨none, some "https://youtu.be/x".toList⟩
        (fun _ => Except.ok (ExtractInfo.playlist [⟨some "T", some 3, some []⟩]))
      = download "" ⟨none, some "https://youtu.be/x".toList⟩
          (fun _ => Except.ok (ExtractInfo.single ⟨some "T", some 3, some []⟩))) ∧
    download "" ⟨none, some "https://youtu.be/x".toList⟩
        (fun _ => Except.ok (ExtractInfo.playlist []))
      = Response.failure 404 "Playlist contained no entries" :=
  ⟨(playlist_first_entry "" ⟨none, some "https://youtu.be/x".toList⟩ _
      ⟨some "T", some 3, some []⟩ [] (Or.inl rfl) (by decide) (by decide)).1 rfl,
   (playlist_first_entry "" ⟨none, some "https://youtu.be/x".toList⟩ _
      ⟨some "T", some 3, some []⟩ [] (Or.inl rfl) (by decide) (by decide)).2 rfl⟩

/-! ## Claim C10: totality on missing optional fields -/

theorem sortKey_fill (f : Format) : sortKey (fillKeyZeros f) = sortKey f := rfl

theorem firstMaxBy_map_fill :
    ∀ l : List Format,
      firstMaxBy (l.map fillKeyZeros) = (firstMaxBy l).map fillKeyZeros
  | [] => rfl
  | f :: fs => by
    cases hm : firstMaxBy fs with
    | none =>
      have := firstMaxBy_map_fill fs
      rw [hm] at this
      simp only [List.map_cons, firstMaxBy, this, hm, Option.map_none',
        Option.map_some']
    | some m =>
      have := firstMaxBy_map_fill fs
      rw [hm] at this
      simp only [List.map_cons, firstMaxBy, this, hm, Option.map_some',
        sortKey_fill]
      by_cases ht : tupLt (sortKey f) (sortKey m) = true
      · rw [if_pos ht, if_pos ht]
        rfl
      · rw [if_neg ht, if_neg ht]
        rfl

theorem filter_map_fill (p : Format → Bool)
    (hp : ∀ f, p (fillKeyZeros f) = p f) (l : List Format) :
    (l.map fillKeyZeros).filter p = (l.filter p).map fillKeyZeros := by
  rw [List.filter_map]
  congr 1
  apply List.filter_congr
  intro a _
  exact hp a

/-- C10 (amended): the selector is total on descriptor lists with absent
optional fields, and an absent (or null) height or bitrate behaves exactly
like an explicit 0 in the quality ordering: replacing absent height/bitrate
by 0 never changes the selected URL; a descriptor missing both has sort
key (0, 0); and it ranks strictly below exactly those descriptors that have
positive height, or zero height and positive bitrate. -/
theorem selector_missing_fields_as_zero :
    (∀ l : List Format,
      pick_best_progressive_mp4 (l.map fillKeyZeros)
        = pick_best_progressive_mp4 l) ∧
    (∀ f : Format, f.height = none → f.tbr = none → sortKey f = (0, 0)) ∧
    (∀ f g : Format, f.height = none → f.tbr = none →
      (tupLt (sortKey f) (sortKey g) = true ↔
        (0 < g.height.getD 0 ∨
          (g.height.getD 0 = 0 ∧ 0 < g.tbr.getD 0)))) := by
  refine ⟨?_, ?_, ?_⟩
  · intro l
    by_cases hl : l = []
    · subst hl
      rfl
    · rw [pick_best_progressive_mp4, pick_best_progressive_mp4,
        if_neg (by simp [List.isEmpty_iff, hl]),
        if_neg (by simp [List.isEmpty_iff, hl])]
      rw [head_pysort, head_pysort, head_pysort, head_pysort, head_pysort,
        head_pysort]
      rw [filter_map_fill isProgMp4 (fun f => rfl),
        filter_map_fill isMp4WithUrl (fun f => rfl),
        filter_map_fill urlTruthy (fun f => rfl)]
      rw [firstMaxBy_map_fill, firstMaxBy_map_fill, firstMaxBy_map_fill]
      cases firstMaxBy (l.filter isProgMp4) with
      | some f => rfl
      | none =>
        cases firstMaxBy (l.filter isMp4WithUrl) with
        | some f => rfl
        | none =>
          cases firstMaxBy (l.filter urlTruthy) with
          | some f => rfl
          | none => rfl
  · intro f h1 h2
    simp [sortKey, h1, h2]
  · intro f g h1 h2
    rw [tupLt_iff]
    simp only [sortKey, h1, h2, Option.getD_none]
    omega

/-- Witness for C10's amended theorem: a fully optional-field descriptor is
handled, keys an absent pair as (0,0), and the ranking characterization
holds against a 720p descriptor. -/
theorem selector_missing_fields_as_zero_witness :
    pick_best_progressive_mp4 ([cexAbsentHeight].map fillKeyZeros)
      = pick_best_progressive_mp4 [cexAbsentHeight] ∧
    sortKey cexAbsentHeight = (0, 0) ∧
    (tupLt (sortKey cexAbsentHeight)
        (sortKey ⟨some "mp4", some "avc1", some "mp4a", some 720, some 100,
          some "V"⟩) = true ↔
      (0 < ((⟨some "mp4", some "avc1", some "mp4a", some 720, some 100,
          some "V"⟩ : Format)).height.getD 0 ∨
        (((⟨some "mp4", some "avc1", some "mp4a", some 720, some 100,
          some "V"⟩ : Format)).height.getD 0 = 0 ∧
          0 < ((⟨some "mp4", some "avc1", some "mp4a", some 720, some 100,
            some "V"⟩ : Format)).tbr.getD 0))) :=
  ⟨selector_missing_fields_as_zero.1 [cexAbsentHeight],
   selector_missing_fields_as_zero.2.1 cexAbsentHeight rfl rfl,
   selector_missing_fields_as_zero.2.2 cexAbsentHeight _ rfl rfl⟩

/-- C10 as stated is false: a descriptor missing height and bitrate keys as
(0, 0), which ranks strictly above — not below — a same-tier progressive
descriptor of height -5 with the positive bitrate 100; the selector even
prefers the missing-fields URL "B" over that descriptor's "A". -/
theorem selector_missing_fields_cex :
    cexNegHeightPosTbr.tbr = some 100 ∧ (0 : Int) < 100 ∧
    isProgMp4 cexNegHeightPosTbr = true ∧
    isProgMp4 cexAbsentHeight = true ∧
    tupLt (sortKey cexAbsentHeight) (sortKey cexNegHeightPosTbr) = false ∧
    tupLt (sortKey cexNegHeightPosTbr) (sortKey cexAbsentHeight) = true ∧
    pick_best_progressive_mp4 [cexNegHeightPosTbr, cexAbsentHeight]
      = some "B" := by
  decide

/-! ## pysplit characterization -/

theorem pysplit_ne_nil (sep : Char) : ∀ l : List Char, pysplit sep l ≠ []
  | [] => by simp [pysplit]
  | c :: cs => by
    rw [pysplit]
    cases h : pysplit sep cs with
    | nil => simp
    | cons hd tl =>
      by_cases hc : c = sep
      · simp [hc]
      · simp [hc]

theorem pysplit_cons_eq {sep c : Char} {cs : List Char} {hd : List Char}
    {tl : List (List Char)} (hp : pysplit sep cs = hd :: tl) :
    pysplit sep (c :: cs)
      = if c = sep then [] :: hd :: tl else (c :: hd) :: tl := by
  rw [pysplit, hp]

theorem pysplit_no_sep {sep : Char} : ∀ {l : List Char}, sep ∉ l →
    pysplit sep l = [l]
  | [], _ => rfl
  | c :: cs, h => by
    have h12 : ¬ sep = c ∧ sep ∉ cs := by
      simpa [List.mem_cons, not_or] using h
    have hc : ¬ c = sep := fun e => h12.1 e.symm
    rw [pysplit_cons_eq (pysplit_no_sep h12.2), if_neg hc]

theorem pysplit_two_le {sep : Char} : ∀ {l : List Char}, sep ∈ l →
    2 ≤ (pysplit sep l).length
  | c :: cs, h => by
    cases hp : pysplit sep cs with
    | nil => exact absurd hp (pysplit_ne_nil sep cs)
    | cons hd tl =>
      rw [pysplit_cons_eq hp]
      by_cases hc : c = sep
      · rw [if_pos hc]
        simp only [List.length_cons]
        omega
      · have hcs : sep ∈ cs := by
          rcases List.mem_cons.mp h with h1 | h1
          · exact absurd h1.symm hc
          · exact h1
        have h2 := pysplit_two_le hcs
        rw [hp] at h2
        rw [if_neg hc]
        simp only [List.length_cons] at h2 ⊢
        omega

theorem takeWhile_append_of_mem_neg {α : Type} {p : α → Bool} :
    ∀ {m ys : List α}, (∃ x ∈ m, p x = false) →
      (m ++ ys).takeWhile p = m.takeWhile p
  | [], _, h => by simp at h
  | a :: m', ys, h => by
    rw [List.cons_append, List.takeWhile_cons, List.takeWhile_cons]
    cases hpa : p a with
    | false => rfl
    | true =>
      have hm : ∃ x ∈ m', p x = false := by
        obtain ⟨x, hx, hpx⟩ := h
        rcases List.mem_cons.mp hx with rfl | hx'
        · rw [hpa] at hpx
          cases hpx
        · exact ⟨x, hx', hpx⟩
      rw [takeWhile_append_of_mem_neg hm]

theorem pysplit_headD (sep : Char) : ∀ l : List Char,
    (pysplit sep l).headD [] = l.takeWhile (· ≠ sep)
  | [] => rfl
  | c :: cs => by
    have ih := pysplit_headD sep cs
    cases hp : pysplit sep cs with
    | nil => exact absurd hp (pysplit_ne_nil sep cs)
    | cons hd tl =>
      rw [hp] at ih
      simp only [List.headD_cons] at ih
      rw [pysplit_cons_eq hp]
      by_cases hc : c = sep
      · rw [if_pos hc, List.takeWhile_cons]
        simp [hc]
      · rw [if_neg hc, List.takeWhile_cons]
        simp [hc, ih]

theorem getLastD_irrel {α : Type} {l : List α} (h : l ≠ []) (d₁ d₂ : α) :
    l.getLastD d₁ = l.getLastD d₂ := by
  cases l with
  | nil => exact absurd rfl h
  | cons a t =>
    rw [List.getLastD_eq_getLast?, List.getLastD_eq_getLast?]
    cases hl : (a :: t).getLast? with
    | none => rw [List.getLast?_eq_none_iff] at hl; cases hl
    | some x => rfl

theorem pysplit_getLastD (sep : Char) : ∀ l : List Char,
    (pysplit sep l).getLastD [] = (l.reverse.takeWhile (· ≠ sep)).reverse
  | [] => rfl
  | c :: cs => by
    have ih := pysplit_getLastD sep cs
    by_cases hcs : sep ∈ cs
    · have hnotall : ∃ x ∈ cs.reverse, (decide (x ≠ sep)) = false :=
        ⟨sep, List.mem_reverse.mpr hcs, by simp⟩
      cases hp : pysplit sep cs with
      | nil => exact absurd hp (pysplit_ne_nil sep cs)
      | cons hd tl =>
        rw [hp] at ih
        rw [pysplit_cons_eq hp]
        by_cases hc : c = sep
        · rw [if_pos hc, List.getLastD_cons, hc, List.reverse_cons,
            takeWhile_append_of_mem_neg hnotall]
          exact ih
        · have htl : tl ≠ [] := by
            have h2 := pysplit_two_le hcs
            rw [hp] at h2
            simp only [List.length_cons] at h2
            intro he
            rw [he] at h2
            simp at h2
          rw [List.getLastD_cons] at ih
          rw [if_neg hc, List.getLastD_cons,
            getLastD_irrel htl (c :: hd) hd, List.reverse_cons,
            takeWhile_append_of_mem_neg hnotall]
          exact ih
    · have hall : ∀ a ∈ cs.reverse, (decide (a ≠ sep)) = true := by
        intro a ha
        simp only [decide_eq_true_eq]
        intro he
        exact hcs (he ▸ List.mem_reverse.mp ha)
      rw [pysplit_cons_eq (pysplit_no_sep hcs)]
      by_cases hc : c = sep
      · rw [if_pos hc, List.reverse_cons,
          List.takeWhile_append_of_pos hall, hc]
        simp
      · rw [if_neg hc, List.reverse_cons,
          List.takeWhile_append_of_pos hall]
        simp [hc]

/-! ## Normalizer contract -/

theorem normalize_shorts_eq (u : List Char) (h : shortsSegment <:+: u) :
    normalize_youtube_url u = shortsCanonical u := by
  have hne : u ≠ [] := by
    intro he
    rw [he] at h
    have := h.sublist.length_le
    simp [shortsSegment] at this
  rw [normalize_youtube_url, if_neg hne, if_pos h,
    pysplit_getLastD, pysplit_headD]
  rfl

theorem normalize_other_eq (u : List Char) (h : ¬ shortsSegment <:+: u) :
    normalize_youtube_url u = u := by
  rw [normalize_youtube_url]
  by_cases he : u = []
  · rw [if_pos he]
  · rw [if_neg he, if_neg h]

/-! ## Claim C4: normalizer contract -/

/-- C4: an input containing the short-form segment is rewritten to the
canonical watch-style URL built from its trailing path component (trailing
slashes removed, query string stripped); any other input is returned
unchanged; and the worked example from the spec holds. -/
theorem normalize_youtube_url_contract :
    (∀ u : List Char,
      (shortsSegment <:+: u → normalize_youtube_url u = shortsCanonical u) ∧
      (¬ shortsSegment <:+: u → normalize_youtube_url u = u)) ∧
    normalize_youtube_url "https://www.youtube.com/shorts/abc123?x=1".toList
      = "https://www.youtube.com/watch?v=abc123".toList := by
  refine ⟨fun u => ⟨normalize_shorts_eq u, normalize_other_eq u⟩, ?_⟩
  decide

/-- Witness for C4: both branches of the contract at concrete inputs. -/
theorem normalize_youtube_url_contract_witness :
    shortsSegment <:+: "https://www.youtube.com/shorts/abc123?x=1".toList ∧
    normalize_youtube_url "https://www.youtube.com/shorts/abc123?x=1".toList
      = shortsCanonical "https://www.youtube.com/shorts/abc123?x=1".toList ∧
    ¬ shortsSegment <:+: "https://youtu.be/xyz".toList ∧
    normalize_youtube_url "https://youtu.be/xyz".toList
      = "https://youtu.be/xyz".toList :=
  ⟨by decide,
   (normalize_youtube_url_contract.1 _).1 (by decide),
   by decide,
   (normalize_youtube_url_contract.1 _).2 (by decide)⟩

/-! ## Claim C9: idempotence of normalization -/

theorem isInfixSnocCases {α : Type} {x l : List α} {c : α}
    (h : x <:+: l ++ [c]) : x <:+: l ∨ x <:+ l ++ [c] := by
  obtain ⟨s, t, hst⟩ := h
  rcases List.eq_nil_or_concat t with rfl | ⟨t₀, c', rfl⟩
  · right
    exact ⟨s, by simpa using hst⟩
  · left
    have hst2 : (s ++ x ++ t₀) ++ [c'] = l ++ [c] := by
      rw [List.concat_eq_append] at hst
      rw [← hst]
      simp [List.append_assoc]
    have h2 := List.append_inj' hst2 (by simp)
    exact ⟨s, t₀, h2.1⟩

theorem not_shorts_in_canonical :
    ∀ vid : List Char, (∀ c ∈ vid, c ≠ '/') →
      ¬ shortsSegment <:+: watchStem ++ vid := by
  intro vid
  induction vid using List.reverseRecOn with
  | nil =>
    intro _
    rw [List.append_nil]
    decide
  | append_singleton xs x ih =>
    intro hmem hinf
    rw [← List.append_assoc] at hinf
    rcases isInfixSnocCases hinf with h1 | h2
    · exact ih (fun c hc => hmem c (List.mem_append_left _ hc)) h1
    · obtain ⟨s, hs⟩ := h2
      have hseg : shortsSegment = "youtube.com/shorts".toList ++ ['/'] := by
        decide
      rw [hseg, ← List.append_assoc] at hs
      have h3 := List.append_inj' hs (by simp)
      have hx : x = '/' := by
        have h4 := h3.2
        simp only [List.cons.injEq, and_true] at h4
        exact h4.symm
      exact hmem x (List.mem_append_right _ (List.mem_singleton.mpr rfl)) hx

theorem no_slash_in_trailing (m : List Char) :
    ∀ c ∈ stripQuery (tailAfterSlash m), c ≠ '/' := by
  intro c hc
  rw [stripQuery] at hc
  have hc2 := (List.takeWhile_sublist _).subset hc
  rw [tailAfterSlash, List.mem_reverse] at hc2
  have h3 := List.mem_takeWhile_imp hc2
  simpa using h3

/-- C9: the URL normalizer is idempotent — a produced canonical watch URL
never contains the short-form segment again, and a pass-through input stays
a pass-through. -/
theorem normalize_youtube_url_idempotent (u : List Char) :
    normalize_youtube_url (normalize_youtube_url u) = normalize_youtube_url u := by
  by_cases h : shortsSegment <:+: u
  · rw [normalize_shorts_eq u h]
    apply normalize_other_eq
    rw [shortsCanonical]
    exact not_shorts_in_canonical _ (no_slash_in_trailing _)
  · rw [normalize_other_eq u h, normalize_other_eq u h]
